import Mathlib

/-!
A shallow embedding of the librespot album downloader (src/main.rs): the
fixed format-preference selection, the `Subfile` sub-range stream adapter,
the album-cover cache, and the per-track / per-album orchestration with its
error policy.  External collaborators (network fetches, MIME sniffing,
filesystem, decryption, key exchange) are modelled as oracles and outcome
flags; everything the claims quantify over is translated from the source.
-/

namespace Librespot

/-- Variants of `librespot::metadata::audio::AudioFileFormat`: exactly the
nineteen constructors that `format_data_rate` in src/main.rs matches
exhaustively (no wildcard arm), so the enum has no further variants. -/
inductive AudioFileFormat
  | FLAC_FLAC_24BIT
  | FLAC_FLAC
  | AAC_320
  | MP3_320
  | MP3_256
  | OGG_VORBIS_320
  | AAC_160
  | MP3_160_ENC
  | MP3_160
  | OGG_VORBIS_160
  | MP4_128
  | AAC_48
  | AAC_24
  | XHE_AAC_24
  | XHE_AAC_16
  | XHE_AAC_12
  | OGG_VORBIS_96
  | MP3_96
  | OTHER5
  deriving DecidableEq, Repr

/-- Constant `FORMAT_PREFERENCE` from src/main.rs, in source order
(highest quality first). -/
def FORMAT_PREFERENCE : List AudioFileFormat :=
  [ .FLAC_FLAC_24BIT, .FLAC_FLAC, .AAC_320, .MP3_320, .MP3_256, .OGG_VORBIS_320,
    .AAC_160, .MP3_160_ENC, .MP3_160, .OGG_VORBIS_160, .MP4_128, .AAC_48, .AAC_24,
    .XHE_AAC_24, .XHE_AAC_16, .XHE_AAC_12, .OGG_VORBIS_96, .MP3_96, .OTHER5 ]

/-- Function `get_extension_from_format` from src/main.rs. -/
def get_extension_from_format (format : AudioFileFormat) : String :=
  let extension :=
    match format with
    | .OGG_VORBIS_96 | .OGG_VORBIS_160 | .OGG_VORBIS_320 => "ogg"
    | .MP3_96 | .MP3_160 | .MP3_256 | .MP3_320 | .MP3_160_ENC => "mp3"
    | .AAC_24 | .AAC_48 | .AAC_160 | .AAC_320 | .MP4_128
    | .XHE_AAC_12 | .XHE_AAC_16 | .XHE_AAC_24 => "aac"
    | .FLAC_FLAC | .FLAC_FLAC_24BIT => "flac"
    | _ => "bin"
  extension

/-- Predicate `AudioFiles::is_ogg_vorbis` of librespot, used by
`download_track` to decide the `Subfile` offset. -/
def is_ogg_vorbis (format : AudioFileFormat) : Bool :=
  match format with
  | .OGG_VORBIS_96 | .OGG_VORBIS_160 | .OGG_VORBIS_320 => true
  | _ => false

/-- Constant `SPOTIFY_OGG_HEADER_END` from src/main.rs. -/
def SPOTIFY_OGG_HEADER_END : Nat := 0xa7

/-- Constant `IMAGE_URL` from src/main.rs. -/
def IMAGE_URL : String := "https://i.scdn.co/image/"

/-- Format selection in `Downloader::download_track` (src/main.rs lines
200-216): `FORMAT_PREFERENCE.iter().find_map(|format| track.files.get(format)
.map(|file_id| (*format, file_id.clone())))`.  The candidate mapping
`track.files` (a `HashMap<AudioFileFormat, FileId>`) is embedded as an
association list with `List.lookup` as `get`; file handles are opaque
strings. -/
def select_format (files : List (AudioFileFormat × String)) :
    Option (AudioFileFormat × String) :=
  FORMAT_PREFERENCE.findSome? fun format =>
    (files.lookup format).map fun file_id => (format, file_id)

/-- Type `std::io::SeekFrom`: `Start(u64)`, `End(i64)`, `Current(i64)`. -/
inductive SeekFrom
  | Start : Nat → SeekFrom
  | End : Int → SeekFrom
  | Current : Int → SeekFrom
  deriving DecidableEq, Repr

/-- Wrapping of a Nat into the u64 range (Rust release-mode `+` on u64). -/
def wrapU64 (n : Nat) : Nat := n % 2 ^ 64

/-- Reinterpretation of a u64 value as i64: the Rust `as i64` casts in the
from-end validation of `Subfile::seek`. -/
def toI64 (n : Nat) : Int := if n < 2 ^ 63 then (n : Int) else (n : Int) - 2 ^ 64

/-- Model of the underlying readable + seekable collaborator (the generic
`T: Read + Seek` that `Subfile` wraps): a stream with a total byte length
and a current absolute position.  Its `seek` follows `std::io::Seek`
semantics: from-start sets the position, from-end / from-current offset
against length / position and fail (`none`) on a resulting negative
position. -/
structure UStream where
  len : Nat
  pos : Nat
  deriving DecidableEq, Repr

/-- Seek of the underlying stream; returns the new absolute position and
the updated stream, or `none` for an error. -/
def UStream.seek (s : UStream) (p : SeekFrom) : Option (Nat × UStream) :=
  match p with
  | .Start n => some (n, { s with pos := n })
  | .End e =>
      let q : Int := (s.len : Int) + e
      if q < 0 then none else some (q.toNat, { s with pos := q.toNat })
  | .Current d =>
      let q : Int := (s.pos : Int) + d
      if q < 0 then none else some (q.toNat, { s with pos := q.toNat })

/-- Error kinds distinguished by the embedding of `Subfile::seek`:
`InvalidInput` is the rejection of a bad from-end seek, `Other` stands for
any error of the underlying stream. -/
inductive IoErrorKind
  | InvalidInput
  | Other
  deriving DecidableEq, Repr

/-- Outcome of `Subfile::seek`: a returned logical position, an `io::Error`,
or a panic (the u64 subtraction `newpos - self.offset` underflowing). -/
inductive SeekResult
  | ok : Nat → SeekResult
  | err : IoErrorKind → SeekResult
  | panicked : SeekResult
  deriving DecidableEq, Repr

/-- Struct `Subfile<T>` from src/main.rs: the wrapped stream plus the fixed
`offset` and `length` of the logical window. -/
structure Subfile where
  stream : UStream
  offset : Nat
  length : Nat
  deriving DecidableEq, Repr

/-- Translation step of `impl Seek for Subfile` (the `let pos = match pos`
block, lines 133-145): from-start becomes `Start (offset + self.offset)`
(u64 addition), from-end is rejected with `InvalidInput` when
`(self.length as i64 - offset) < self.offset as i64` and passed through
unmodified otherwise, from-current is passed through unmodified. -/
def Subfile.translate (sf : Subfile) (pos : SeekFrom) : Except IoErrorKind SeekFrom :=
  match pos with
  | .Start offset => .ok (.Start (wrapU64 (offset + sf.offset)))
  | .End offset =>
      if toI64 sf.length - offset < toI64 sf.offset then .error .InvalidInput
      else .ok pos
  | .Current _ => .ok pos

/-- Function `Subfile::seek` (src/main.rs lines 132-149): translate the
request, seek the underlying stream, and return `newpos - self.offset`.
The final u64 subtraction panics (debug overflow check) when the underlying
new position is below `offset`; that outcome is `SeekResult.panicked`. -/
def Subfile.seek (sf : Subfile) (pos : SeekFrom) : SeekResult × Subfile :=
  match sf.translate pos with
  | .error k => (.err k, sf)
  | .ok pos1 =>
    match sf.stream.seek pos1 with
    | none => (.err .Other, sf)
    | some (newpos, stream1) =>
      if newpos < sf.offset then (.panicked, { sf with stream := stream1 })
      else (.ok (newpos - sf.offset), { sf with stream := stream1 })

/-- Constructor `Subfile::new` (src/main.rs lines 113-122): seeks the
underlying stream to absolute `offset` and fails if that seek fails. -/
def Subfile.new (stream : UStream) (offset length : Nat) : Option Subfile :=
  match stream.seek (.Start offset) with
  | none => none
  | some (_, stream1) => some { stream := stream1, offset := offset, length := length }

/-- Enum `librespot::metadata::image::ImageSize`. -/
inductive ImageSize
  | DEFAULT
  | SMALL
  | LARGE
  | XLARGE
  deriving DecidableEq, Repr

/-- Inner function `size_rank` of `Downloader::get_cover` (an i32 rank,
embedded as Int). -/
def size_rank (size : ImageSize) : Int :=
  match size with
  | .DEFAULT => 0
  | .SMALL => 1
  | .LARGE => 2
  | .XLARGE => 3

/-- Cover-art descriptor (`librespot::metadata::image::Image`): the fields
read by src/main.rs are the identifier (its `to_string`) and the size. -/
structure Image where
  id : String
  size : ImageSize
  deriving DecidableEq, Repr

/-- Model of lofty `MimeType` as used by src/main.rs: the `Jpeg` fallback
and the result of `MimeType::from_str` on a sniffed MIME string. -/
inductive MimeType
  | Jpeg
  | fromStr : String → MimeType
  deriving DecidableEq, Repr

/-- Value of one `album_cover_cache` entry: raw image bytes and MIME type. -/
abbrev CoverVal := List Nat × MimeType

/-- Field `album_cover_cache : HashMap<String, (Vec<u8>, MimeType)>`,
embedded as an association list whose `lookup` is `get` / `contains_key`
and whose head-insertion is `insert` (a later insert for the same key
shadows, as in the HashMap). -/
abbrev CoverCache := List (String × CoverVal)

/-- One step of Rust `Iterator::max_by_key` with key `size_rank(cover.size)`
(that is, of the underlying `reduce` with `cmp::max_by`): keep the current
maximum, taking the later element unless it compares strictly less, so ties
go to the later element. -/
def max_step (acc : Option Image) (c : Image) : Option Image :=
  match acc with
  | none => some c
  | some m => if size_rank c.size < size_rank m.size then some m else some c

/-- Rust `track.album.covers.iter().max_by_key(|cover| size_rank(cover.size))`
from `Downloader::get_cover`. -/
def max_by_key (covers : List Image) : Option Image :=
  covers.foldl max_step none

/-- Identifier selected by `get_cover` for a cover list (the `cover.id
.to_string()` of the `max_by_key` winner), when one exists. -/
def sel_id (covers : List Image) : Option String :=
  (max_by_key covers).map fun c => c.id

/-- Function `Downloader::download_cover` (src/main.rs lines 324-337): one
HTTP GET of `IMAGE_URL ++ id` (the `fetchBody` oracle standing for
`http_client().request_body`), MIME sniffing of the body (the `sniff`
oracle standing for `infer::get(..).map(..mime_type())`) with the
`MimeType::Jpeg` fallback, then the cache insert.  Returns the updated
cache, or `none` when the request fails (the `?` operator). -/
def download_cover (fetchBody : String → Option (List Nat))
    (sniff : List Nat → Option String) (cache : CoverCache) (id : String) :
    Option CoverCache :=
  match fetchBody (IMAGE_URL ++ id) with
  | none => none
  | some cover_data =>
    let mime_type := ((sniff cover_data).map MimeType.fromStr).getD MimeType.Jpeg
    some ((id, (cover_data, mime_type)) :: cache)

/-- Result of `Downloader::get_cover`: the returned tuple, a propagated
fetch error, or a panic (the `.unwrap()` on `max_by_key` of an empty cover
list). -/
inductive GetCoverRes
  | panicked
  | failed
  | ok : CoverVal → GetCoverRes
  deriving DecidableEq, Repr

/-- Function `Downloader::get_cover` (src/main.rs lines 306-322): pick the
`max_by_key` cover (`.unwrap()` panics when there is none), fetch on a
cache miss (`if !contains_key { download_cover? }`), then read the entry
back.  Besides the result and the updated cache it returns the list of
identifiers for which a network fetch was issued by this call. -/
def get_cover (fetchBody : String → Option (List Nat))
    (sniff : List Nat → Option String) (cache : CoverCache)
    (covers : List Image) : GetCoverRes × CoverCache × List String :=
  match max_by_key covers with
  | none => (.panicked, cache, [])
  | some cover =>
    let cover_id := cover.id
    if (cache.lookup cover_id).isSome then
      match cache.lookup cover_id with
      | some v => (.ok v, cache, [])
      | none => (.panicked, cache, [])
    else
      match download_cover fetchBody sniff cache cover_id with
      | none => (.failed, cache, [cover_id])
      | some cache1 =>
        match cache1.lookup cover_id with
        | some v => (.ok v, cache1, [cover_id])
        | none => (.panicked, cache1, [cover_id])

/-- Sequence of `get_cover` calls sharing one cache (one call per track,
given by that track's cover list), as performed across an album run.
Returns the final cache and, per call, the result and the identifiers
fetched over the network by that call. -/
def run_gets (fetchBody : String → Option (List Nat))
    (sniff : List Nat → Option String) (cache : CoverCache) :
    List (List Image) → CoverCache × List (GetCoverRes × List String)
  | [] => (cache, [])
  | covers :: rest =>
    match get_cover fetchBody sniff cache covers with
    | (res, cache1, fetched) =>
      let (cacheF, outs) := run_gets fetchBody sniff cache1 rest
      (cacheF, (res, fetched) :: outs)

/-- Value that a fetch of identifier `id` inserts into the cache: the body
returned by the network oracle for `IMAGE_URL ++ id` and the sniffed MIME
type with the Jpeg fallback. -/
def cov_val (body : String → List Nat) (sniff : List Nat → Option String)
    (id : String) : CoverVal :=
  (body (IMAGE_URL ++ id),
    ((sniff (body (IMAGE_URL ++ id))).map MimeType.fromStr).getD MimeType.Jpeg)

/-- Tag container flavor chosen by `apply_tag` from the file extension. -/
inductive TagType
  | VorbisComments
  | Id3v2
  deriving DecidableEq, Repr

/-- Track metadata as read by src/main.rs from `librespot::metadata::Track`:
display name, artist names in display order, the base62 id string
(`track.id.to_id()`), whether `track.id` is a `SpotifyUri::Track`, the
track number, the owning album's name, the cover descriptors
(`track.album.covers`) and the candidate mapping (`track.files`). -/
structure Track where
  name : String
  artists : List String
  idStr : String
  idIsTrack : Bool
  number : Nat
  albumName : String
  covers : List Image
  files : List (AudioFileFormat × String)
  deriving DecidableEq, Repr

/-- Outcomes of the external collaborators for one track, one flag per
fallible call of the pipeline: `Track::get` (metaOk), `AudioFile::open`
(openOk), `get_stream_loader_controller` (slcOk), the audio-key request
(keyOk — absorbed, decryption proceeds without a key), the `Subfile::new`
underlying seek (subfileOk), `File::create` (createOk), `io::copy`
(copyOk) and `tag.save_to_path` (saveTagOk). -/
structure Collab where
  metaOk : Bool
  openOk : Bool
  slcOk : Bool
  keyOk : Bool
  subfileOk : Bool
  createOk : Bool
  copyOk : Bool
  saveTagOk : Bool
  deriving DecidableEq, Repr

/-- Result of `apply_tag`: success with tags written, success with the
tag write failed (warning logged, `Ok(())` returned), a propagated error
(the `?` on `get_cover`), or the panic propagated out of `get_cover`. -/
inductive TagRes
  | okTagged
  | okUntagged
  | err
  | panicked
  deriving DecidableEq, Repr

/-- Result of `download_track` / `save_decrypted_audio` for one track:
`ok written tagged` is an `Ok(())` return recording which output file (if
any) was written and whether it was tagged; `err` is a propagated
`Err(..)`; `panicked` is an abnormal termination inside `get_cover`. -/
inductive TrackResult
  | ok : Option String → Bool → TrackResult
  | err
  | panicked
  deriving DecidableEq, Repr

/-- Function `Downloader::apply_tag` (src/main.rs lines 269-304): choose the
tag container from the extension, build the tag fields (pure, byte-level
serialization is the lofty collaborator and out of scope), fetch the cover
(`self.get_cover(track).await?` — its error propagates), and save; a
`save_to_path` failure is only a warning, the function still returns
`Ok(())`. -/
def apply_tag (fetchBody : String → Option (List Nat))
    (sniff : List Nat → Option String) (cache : CoverCache) (c : Collab)
    (file_extension : String) (track : Track) : TagRes × CoverCache :=
  let _tag_type : TagType :=
    if file_extension = "ogg" || file_extension = "flac" then .VorbisComments
    else .Id3v2
  match get_cover fetchBody sniff cache track.covers with
  | (.panicked, cache1, _) => (.panicked, cache1)
  | (.failed, cache1, _) => (.err, cache1)
  | (.ok _cover, cache1, _) =>
    if c.saveTagOk then (.okTagged, cache1) else (.okUntagged, cache1)

/-- Function `Downloader::save_decrypted_audio` (src/main.rs lines 247-267):
build the output filename, create the file (`?` — fatal on failure), copy
the full stream (`?` — fatal on failure), then `self.apply_tag(..).await?`
(its error propagates). -/
def save_decrypted_audio (fetchBody : String → Option (List Nat))
    (sniff : List Nat → Option String) (cache : CoverCache) (c : Collab)
    (format : AudioFileFormat) (track : Track) : TrackResult × CoverCache :=
  let file_extension := get_extension_from_format format
  let artists := String.intercalate " & " track.artists
  let filename :=
    artists ++ " - " ++ track.name ++ " (" ++ track.idStr ++ ")." ++ file_extension
  if !c.createOk then (.err, cache)
  else if !c.copyOk then (.err, cache)
  else
    match apply_tag fetchBody sniff cache c file_extension track with
    | (.okTagged, cache1) => (.ok (some filename) true, cache1)
    | (.okUntagged, cache1) => (.ok (some filename) false, cache1)
    | (.err, cache1) => (.err, cache1)
    | (.panicked, cache1) => (.panicked, cache1)

/-- Function `Downloader::download_track` (src/main.rs lines 189-245): early
`Ok(())` on a non-track URI; format selection with a warning and `Ok(())`
when nothing is supported; `AudioFile::open` failure logged and absorbed
(`Ok(())`); `get_stream_loader_controller()?` fatal; key failure absorbed;
the ogg-header offset; `Subfile::new` failure logged and absorbed
(`Ok(())`); then `save_decrypted_audio(..)?`. -/
def download_track (fetchBody : String → Option (List Nat))
    (sniff : List Nat → Option String) (cache : CoverCache) (c : Collab)
    (track : Track) : TrackResult × CoverCache :=
  if !track.idIsTrack then (.ok none false, cache)
  else
    match select_format track.files with
    | none => (.ok none false, cache)
    | some (format, _file_id) =>
      if !c.openOk then (.ok none false, cache)
      else if !c.slcOk then (.err, cache)
      else
        let _offset := if is_ogg_vorbis format then SPOTIFY_OGG_HEADER_END else 0
        if !c.subfileOk then (.ok none false, cache)
        else save_decrypted_audio fetchBody sniff cache c format track

/-- Function `Downloader::download_album` (src/main.rs lines 172-182) with
the `Track::get` of `download_track_by_uri`: the album directory is created
once, then every track is processed strictly sequentially; the `?` on
`download_track_by_uri` ends the loop at the first propagated error, and a
panic likewise ends the run.  Returns the per-track results in order (the
list stops at the aborting track) and the final cover cache. -/
def download_album (fetchBody : String → Option (List Nat))
    (sniff : List Nat → Option String) (cache : CoverCache) :
    List (Collab × Track) → List TrackResult × CoverCache
  | [] => ([], cache)
  | (c, track) :: rest =>
    if !c.metaOk then ([.err], cache)
    else
      match download_track fetchBody sniff cache c track with
      | (.ok w tg, cache1) =>
        let (outs, cacheF) := download_album fetchBody sniff cache1 rest
        (.ok w tg :: outs, cacheF)
      | (.err, cache1) => ([.err], cache1)
      | (.panicked, cache1) => ([.panicked], cache1)

/-- Output filename as the spec words it: `"{artists} - {trackName}
({externalId}).{ext}"` with the artists joined by `" & "` and the extension
derived from the selected format's codec family.  Stated separately from
the pipeline so the materialized name can be compared against it. -/
def spec_output_filename (format : AudioFileFormat) (track : Track) : String :=
  String.intercalate " & " track.artists ++ " - " ++ track.name ++ " (" ++
    track.idStr ++ ")." ++ get_extension_from_format format

/-- Collaborator outcomes with every external call succeeding. -/
def collab_ok : Collab :=
  { metaOk := true, openOk := true, slcOk := true, keyOk := true,
    subfileOk := true, createOk := true, copyOk := true, saveTagOk := true }

/-- Concrete track fixture: one supported format, one cover, two artists. -/
def track_fx : Track :=
  { name := "T", artists := ["A", "B"], idStr := "ID", idIsTrack := true,
    number := 1, albumName := "X",
    covers := [Image.mk "c" ImageSize.LARGE],
    files := [(AudioFileFormat.OGG_VORBIS_320, "f")] }

theorem ustream_seek_pos {s : UStream} {p : SeekFrom} {np : Nat} {s1 : UStream}
    (h : s.seek p = some (np, s1)) : s1.pos = np := by
  cases p with
  | Start n =>
    simp [UStream.seek] at h
    rw [← h.1, ← h.2]
  | End e =>
    simp only [UStream.seek] at h
    by_cases hq : (s.len : Int) + e < 0
    · rw [if_pos hq] at h; cases h
    · rw [if_neg hq] at h
      injection h with h1
      injection h1 with h2 h3
      rw [← h2, ← h3]
  | Current d =>
    simp only [UStream.seek] at h
    by_cases hq : (s.pos : Int) + d < 0
    · rw [if_pos hq] at h; cases h
    · rw [if_neg hq] at h
      injection h with h1
      injection h1 with h2 h3
      rw [← h2, ← h3]

/-- C3: the sub-range stream adapter translates an absolute-from-start seek
to logical position `p` into an absolute-from-start seek to `p + offset` on
the underlying stream, and whenever `Subfile.seek` returns a position, that
position equals the underlying stream's new absolute position minus the
window offset. -/
theorem C3_subrange_seek_translation (sf : Subfile) (p : Nat)
    (hov : p + sf.offset < 2 ^ 64) :
    sf.translate (.Start p) = .ok (.Start (p + sf.offset)) ∧
    ∀ q r sf2, sf.seek q = (.ok r, sf2) →
      sf.offset ≤ sf2.stream.pos ∧ r = sf2.stream.pos - sf.offset := by
  constructor
  · have hmod : wrapU64 (p + sf.offset) = p + sf.offset := Nat.mod_eq_of_lt hov
    simp [Subfile.translate, hmod]
  · intro q r sf2 h
    unfold Subfile.seek at h
    split at h
    next k _ => cases h
    next pos1 _ =>
      split at h
      next => cases h
      next newpos stream1 heq2 =>
        split at h
        next hlt => cases h
        next hlt =>
          injection h with h1 h2
          injection h1 with h3
          have hps : stream1.pos = newpos := ustream_seek_pos heq2
          rw [← h2, ← h3]
          simp only [hps]
          exact ⟨Nat.le_of_not_lt hlt, trivial⟩

/-- Witness for C3 at a concrete window and seek. -/
theorem C3_subrange_seek_translation_witness :
    Subfile.translate ⟨⟨100, 10⟩, 10, 90⟩ (.Start 5) = .ok (.Start (5 + 10)) ∧
    (10 ≤ (UStream.mk 100 15).pos ∧ (5 : Nat) = (UStream.mk 100 15).pos - 10) := by
  have h := C3_subrange_seek_translation ⟨⟨100, 10⟩, 10, 90⟩ 5 (by decide)
  exact ⟨h.1, h.2 (.Start 5) 5 ⟨⟨100, 15⟩, 10, 90⟩ (by decide)⟩

/-- C4: a from-end seek whose `length - e < offset` check (in i64
arithmetic) fires is rejected with an invalid-input error, leaving the
underlying stream untouched and the adapter state unchanged; any other
from-end seek request is passed through to the underlying stream
unmodified. -/
theorem C4_subrange_from_end_validation (sf : Subfile) (e : Int) :
    (toI64 sf.length - e < toI64 sf.offset →
      sf.seek (.End e) = (.err .InvalidInput, sf)) ∧
    (¬ toI64 sf.length - e < toI64 sf.offset →
      sf.translate (.End e) = .ok (.End e)) := by
  constructor
  · intro h
    simp [Subfile.seek, Subfile.translate, if_pos h]
  · intro h
    simp [Subfile.translate, if_neg h]

/-- Witness for C4: a rejected and an accepted from-end seek. -/
theorem C4_subrange_from_end_validation_witness :
    Subfile.seek ⟨⟨100, 0⟩, 10, 5⟩ (.End 0) = (.err .InvalidInput, ⟨⟨100, 0⟩, 10, 5⟩) ∧
    Subfile.translate ⟨⟨100, 0⟩, 10, 200⟩ (.End 0) = .ok (.End 0) :=
  ⟨(C4_subrange_from_end_validation ⟨⟨100, 0⟩, 10, 5⟩ 0).1 (by decide),
    (C4_subrange_from_end_validation ⟨⟨100, 0⟩, 10, 200⟩ 0).2 (by decide)⟩

/-- C10: `Subfile.seek` is not total.  A relative-from-current seek passed
through unmodified, and an accepted from-end seek against an underlying
stream shorter than the declared window, can both leave the underlying
absolute position strictly below the window offset; the u64 subtraction
`newpos - self.offset` then underflows (a panic), instead of an error
value being returned. -/
theorem C10_reported_position_underflow :
    (Subfile.seek ⟨⟨100, 10⟩, 10, 100⟩ (.Current (-5))).1 = .panicked ∧
    (Subfile.seek ⟨⟨5, 0⟩, 10, 100⟩ (.End 0)).1 = .panicked := by decide



/-! Helper lemmas about association-list lookup and `findSome?`. -/

theorem lookup_cons_eq {α β : Type} [DecidableEq α] (a : α) (p : α × β)
    (l : List (α × β)) :
    List.lookup a (p :: l) = if a = p.1 then some p.2 else List.lookup a l := by
  cases p with
  | mk x y =>
    show (match a == x with | true => some y | false => List.lookup a l) = _
    by_cases h : a = x
    · simp [h]
    · have hb : (a == x) = false := beq_eq_false_iff_ne.mpr h
      simp [hb, h]

theorem lookup_isSome_of_mem {α β : Type} [DecidableEq α] {l : List (α × β)}
    {a : α} {b : β} (h : (a, b) ∈ l) : (l.lookup a).isSome := by
  induction l with
  | nil => cases h
  | cons p t ih =>
    rw [lookup_cons_eq]
    by_cases hp : a = p.1
    · simp [hp]
    · simp only [hp, if_false]
      rcases List.mem_cons.mp h with h1 | h1
      · exact absurd (congrArg Prod.fst h1) hp
      · exact ih h1

theorem mem_of_lookup_some {α β : Type} [DecidableEq α] {l : List (α × β)}
    {a : α} {b : β} (h : l.lookup a = some b) : (a, b) ∈ l := by
  induction l with
  | nil => simp [List.lookup] at h
  | cons p t ih =>
    rw [lookup_cons_eq] at h
    by_cases hp : a = p.1
    · rw [if_pos hp] at h
      have : p = (a, b) := by
        cases p; cases hp; cases Option.some.inj h; rfl
      exact this ▸ List.mem_cons_self _ _
    · rw [if_neg hp] at h
      exact List.mem_cons_of_mem _ (ih h)

theorem findSome?_eq_none_of {α β : Type} {l : List α} {f : α → Option β}
    (h : ∀ a ∈ l, f a = none) : l.findSome? f = none := by
  induction l with
  | nil => rfl
  | cons x t ih =>
    rw [List.findSome?_cons, h x (List.mem_cons_self _ _)]
    exact ih fun a ha => h a (List.mem_cons_of_mem _ ha)

theorem findSome?_isSome {α β : Type} {l : List α} {f : α → Option β}
    (h : ∃ a ∈ l, (f a).isSome) : (l.findSome? f).isSome := by
  induction l with
  | nil => simp at h
  | cons x t ih =>
    rw [List.findSome?_cons]
    cases hx : f x with
    | some b => rfl
    | none =>
      rcases h with ⟨a, ha, hfa⟩
      rcases List.mem_cons.mp ha with h1 | h1
      · rw [h1, hx] at hfa; cases hfa
      · exact ih ⟨a, h1, hfa⟩

theorem findSome?_split {α β : Type} {l : List α} {f : α → Option β} {b : β}
    (h : l.findSome? f = some b) :
    ∃ l1 a l2, l = l1 ++ a :: l2 ∧ f a = some b ∧ ∀ x ∈ l1, f x = none := by
  induction l with
  | nil => simp [List.findSome?] at h
  | cons x t ih =>
    rw [List.findSome?_cons] at h
    cases hx : f x with
    | some v =>
      rw [hx] at h
      exact ⟨[], x, t, rfl, hx.trans h, by simp⟩
    | none =>
      rw [hx] at h
      rcases ih h with ⟨l1, a, l2, hsplit, hfa, hnone⟩
      refine ⟨x :: l1, a, l2, by rw [hsplit]; rfl, hfa, ?_⟩
      intro y hy
      rcases List.mem_cons.mp hy with h1 | h1
      · exact h1 ▸ hx
      · exact hnone y h1

theorem lookup_eq_of_perm {α β : Type} [DecidableEq α] {l1 l2 : List (α × β)}
    (h : List.Perm l1 l2) :
    (l1.map Prod.fst).Nodup → ∀ a, l1.lookup a = l2.lookup a := by
  induction h with
  | nil => intro _ a; rfl
  | cons x _ ih =>
    intro hnd a
    rw [lookup_cons_eq, lookup_cons_eq]
    by_cases hx : a = x.1
    · simp [hx]
    · simp only [hx, if_false]
      exact ih (by simpa using (List.nodup_cons.mp (by simpa using hnd)).2) a
  | swap x y l =>
    intro hnd a
    have hne : y.1 ≠ x.1 := by
      simp only [List.map_cons, List.nodup_cons, List.mem_cons] at hnd
      exact fun he => hnd.1 (Or.inl he)
    rw [lookup_cons_eq, lookup_cons_eq, lookup_cons_eq, lookup_cons_eq]
    by_cases hy : a = y.1 <;> by_cases hx : a = x.1
    · exact absurd (hy.symm.trans hx) hne
    · rw [if_pos hy, if_neg hx, if_pos hy]
    · rw [if_neg hy, if_pos hx, if_pos hx]
    · rw [if_neg hy, if_neg hx, if_neg hx, if_neg hy]
  | trans h1 _ ih1 ih2 =>
    intro hnd a
    rw [ih1 hnd a, ih2 ((h1.map Prod.fst).nodup hnd) a]

theorem format_preference_nodup : FORMAT_PREFERENCE.Nodup := by decide

/-- C1: for every track whose candidate mapping contains at least one
encoding appearing in `FORMAT_PREFERENCE`, `select_format` returns the
candidate whose encoding has the earliest `FORMAT_PREFERENCE` index, and
the result is independent of the mapping's iteration order (invariant
under permutation of the association list, given unique keys); for a
mapping sharing no encoding with `FORMAT_PREFERENCE`, selection returns
`none` and `download_track` writes no file for that track. -/
theorem C1_format_selection (files : List (AudioFileFormat × String)) :
    ((∃ p ∈ files, p.1 ∈ FORMAT_PREFERENCE) →
      ∃ f fid, select_format files = some (f, fid) ∧ files.lookup f = some fid ∧
        f ∈ FORMAT_PREFERENCE ∧
        ∀ g ∈ FORMAT_PREFERENCE, (files.lookup g).isSome →
          FORMAT_PREFERENCE.indexOf f ≤ FORMAT_PREFERENCE.indexOf g) ∧
    (∀ files2, List.Perm files files2 → (files.map Prod.fst).Nodup →
      select_format files = select_format files2) ∧
    ((∀ p ∈ files, p.1 ∉ FORMAT_PREFERENCE) →
      select_format files = none ∧
      ∀ fetchBody sniff cache c track, track.files = files →
        download_track fetchBody sniff cache c track = (.ok none false, cache)) := by
  refine ⟨?_, ?_, ?_⟩
  · rintro ⟨⟨pf, pid⟩, hpmem, hppref⟩
    have hsome : (select_format files).isSome := by
      refine findSome?_isSome ⟨pf, hppref, ?_⟩
      have := lookup_isSome_of_mem hpmem
      cases hl : files.lookup pf with
      | none => rw [hl] at this; cases this
      | some v => simp [hl]
    cases hsel : select_format files with
    | none => rw [hsel] at hsome; cases hsome
    | some pr =>
      rcases findSome?_split hsel with ⟨l1, a, l2, hsplit, hfa, hnone⟩
      cases hla : files.lookup a with
      | none => rw [hla] at hfa; cases hfa
      | some fid =>
        rw [hla] at hfa
        have hpr : pr = (a, fid) := (Option.some.inj hfa).symm
        subst hpr
        refine ⟨a, fid, rfl, hla, ?_, ?_⟩
        · rw [hsplit]; exact List.mem_append_right _ (List.mem_cons_self _ _)
        · intro g hg hgl
          have hgnotl1 : g ∉ l1 := by
            intro hgl1
            have := hnone g hgl1
            cases hlg : files.lookup g with
            | none => rw [hlg] at hgl; cases hgl
            | some v => rw [hlg] at this; cases this
          have hanotl1 : a ∉ l1 := by
            have hnd := format_preference_nodup
            rw [hsplit] at hnd
            intro hal1
            exact (List.disjoint_of_nodup_append hnd) hal1 (List.mem_cons_self _ _)
          rw [hsplit, List.indexOf_append_of_not_mem hanotl1,
            List.indexOf_append_of_not_mem hgnotl1]
          have : List.indexOf a (a :: l2) = 0 := List.indexOf_cons_self a l2
          omega
  · intro files2 hperm hnd
    unfold select_format
    have hfun : (fun format => (files.lookup format).map
        (fun file_id => (format, file_id))) =
        (fun format => (files2.lookup format).map
          (fun file_id => (format, file_id))) := by
      funext format
      rw [lookup_eq_of_perm hperm hnd format]
    rw [hfun]
  · intro hno
    have hsel : select_format files = none := by
      refine findSome?_eq_none_of ?_
      intro g hg
      cases hlg : files.lookup g with
      | none => simp
      | some v => exact absurd hg (hno (g, v) (mem_of_lookup_some hlg))
    refine ⟨hsel, ?_⟩
    intro fetchBody sniff cache c track htf
    cases hti : track.idIsTrack with
    | false => simp [download_track, hti]
    | true => simp [download_track, hti, htf, hsel]

/-- Witness for C1 at concrete candidate mappings. -/
theorem C1_format_selection_witness :
    (∃ f fid,
      select_format [(AudioFileFormat.MP3_320, "a"), (AudioFileFormat.FLAC_FLAC, "b")] =
        some (f, fid) ∧
      List.lookup f [(AudioFileFormat.MP3_320, "a"), (AudioFileFormat.FLAC_FLAC, "b")] =
        some fid ∧
      f ∈ FORMAT_PREFERENCE ∧
      ∀ g ∈ FORMAT_PREFERENCE,
        (List.lookup g [(AudioFileFormat.MP3_320, "a"),
          (AudioFileFormat.FLAC_FLAC, "b")]).isSome →
        FORMAT_PREFERENCE.indexOf f ≤ FORMAT_PREFERENCE.indexOf g) ∧
    select_format [(AudioFileFormat.MP3_320, "a"), (AudioFileFormat.FLAC_FLAC, "b")] =
      select_format [(AudioFileFormat.FLAC_FLAC, "b"), (AudioFileFormat.MP3_320, "a")] :=
  ⟨(C1_format_selection _).1 (by decide),
    (C1_format_selection _).2.1 _ (by decide) (by decide)⟩


theorem foldl_max_step_spec (l : List Image) (m : Image) :
    ∃ c l2, List.foldl max_step (some m) l = some c ∧
      ((c = m ∧ l2 = l) ∨ ∃ l1, l = l1 ++ c :: l2) ∧
      size_rank m.size ≤ size_rank c.size ∧
      (∀ d ∈ l, size_rank d.size ≤ size_rank c.size) ∧
      (∀ d ∈ l2, size_rank d.size < size_rank c.size) := by
  induction l generalizing m with
  | nil =>
    exact ⟨m, [], rfl, Or.inl ⟨rfl, rfl⟩, le_refl _, by simp, by simp⟩
  | cons x xs ih =>
    rw [List.foldl_cons]
    by_cases hx : size_rank x.size < size_rank m.size
    · have hstep : max_step (some m) x = some m := by simp [max_step, hx]
      rw [hstep]
      rcases ih m with ⟨c, l2, hfold, hdec, hm, hall, hlast⟩
      rcases hdec with ⟨hcm, hl2⟩ | ⟨l1, hl1⟩
      · subst hcm; subst hl2
        refine ⟨c, x :: l2, hfold, Or.inl ⟨rfl, rfl⟩, hm, ?_, ?_⟩
        · intro d hd
          rcases List.mem_cons.mp hd with rfl | hd2
          · exact le_of_lt hx
          · exact hall d hd2
        · intro d hd
          rcases List.mem_cons.mp hd with rfl | hd2
          · exact hx
          · exact hlast d hd2
      · refine ⟨c, l2, hfold, Or.inr ⟨x :: l1, by rw [hl1]; rfl⟩, hm, ?_, hlast⟩
        intro d hd
        rcases List.mem_cons.mp hd with rfl | hd2
        · exact le_trans (le_of_lt hx) hm
        · exact hall d hd2
    · have hstep : max_step (some m) x = some x := by simp [max_step, hx]
      rw [hstep]
      rcases ih x with ⟨c, l2, hfold, hdec, hmx, hall, hlast⟩
      have hmle : size_rank m.size ≤ size_rank x.size := le_of_not_lt hx
      rcases hdec with ⟨hcm, hl2⟩ | ⟨l1, hl1⟩
      · subst hcm; subst hl2
        refine ⟨c, l2, hfold, Or.inr ⟨[], rfl⟩, le_trans hmle (le_refl _), ?_, hlast⟩
        intro d hd
        rcases List.mem_cons.mp hd with rfl | hd2
        · exact le_refl _
        · exact hall d hd2
      · refine ⟨c, l2, hfold, Or.inr ⟨x :: l1, by rw [hl1]; rfl⟩,
          le_trans hmle hmx, ?_, hlast⟩
        intro d hd
        rcases List.mem_cons.mp hd with rfl | hd2
        · exact hmx
        · exact hall d hd2

theorem max_by_key_spec (l : List Image) (hne : l ≠ []) :
    ∃ c l1 l2, max_by_key l = some c ∧ l = l1 ++ c :: l2 ∧
      (∀ d ∈ l, size_rank d.size ≤ size_rank c.size) ∧
      (∀ d ∈ l2, size_rank d.size < size_rank c.size) := by
  cases l with
  | nil => exact absurd rfl hne
  | cons y ys =>
    rcases foldl_max_step_spec ys y with ⟨c, l2, hfold, hdec, hm, hall, hlast⟩
    have hfold2 : max_by_key (y :: ys) = some c := by
      rw [max_by_key, List.foldl_cons]
      exact hfold
    have hally : ∀ d ∈ y :: ys, size_rank d.size ≤ size_rank c.size := by
      intro d hd
      rcases List.mem_cons.mp hd with rfl | hd2
      · exact hm
      · exact hall d hd2
    rcases hdec with ⟨hcm, hl2⟩ | ⟨l1, hl1⟩
    · exact ⟨c, [], l2, hfold2, by simp [hcm, hl2], hally, hlast⟩
    · exact ⟨c, y :: l1, l2, hfold2, by rw [hl1]; exact rfl, hally, hlast⟩

/-- C6: for a track with a non-empty cover list, `max_by_key` picks a cover
of maximal `size_rank` (ordinal ranking DEFAULT < SMALL < LARGE < XLARGE),
with ties broken by taking the last maximal descriptor (everything after
the winner ranks strictly lower); on sizes drawn from default and large
with at least one large the winner is large; and on a concrete
default + large pair `get_cover` fetches the large descriptor's
identifier, never the default one. -/
theorem C6_cover_size_selection (l : List Image) (hne : l ≠ []) :
    (∃ c l1 l2, max_by_key l = some c ∧ l = l1 ++ c :: l2 ∧
      (∀ d ∈ l, size_rank d.size ≤ size_rank c.size) ∧
      (∀ d ∈ l2, size_rank d.size < size_rank c.size)) ∧
    ((∀ d ∈ l, d.size = ImageSize.DEFAULT ∨ d.size = ImageSize.LARGE) →
      (∃ d ∈ l, d.size = ImageSize.LARGE) →
      ∃ c, max_by_key l = some c ∧ c.size = ImageSize.LARGE) ∧
    (∀ dId lId fetchBody sniff,
      (get_cover fetchBody sniff []
        [⟨dId, ImageSize.DEFAULT⟩, ⟨lId, ImageSize.LARGE⟩]).2.2 = [lId]) := by
  refine ⟨max_by_key_spec l hne, ?_, ?_⟩
  · intro hdl ⟨d, hd, hdL⟩
    rcases max_by_key_spec l hne with ⟨c, l1, l2, hsel, hsplit, hall, _⟩
    refine ⟨c, hsel, ?_⟩
    have hcl : c ∈ l := by rw [hsplit]; exact List.mem_append_right _ (List.mem_cons_self _ _)
    have hle : size_rank d.size ≤ size_rank c.size := hall d hd
    rcases hdl c hcl with hc | hc
    · rw [hdL] at hle
      rw [hc] at hle
      simp [size_rank] at hle
    · exact hc
  · intro dId lId fetchBody sniff
    have hmax : max_by_key [⟨dId, ImageSize.DEFAULT⟩, ⟨lId, ImageSize.LARGE⟩] =
        some ⟨lId, ImageSize.LARGE⟩ := by
      simp [max_by_key, max_step, size_rank]
    rw [get_cover, hmax]
    show (match download_cover fetchBody sniff [] lId with
      | none => (GetCoverRes.failed, ([] : CoverCache), [lId])
      | some cache1 =>
        match cache1.lookup lId with
        | some v => (GetCoverRes.ok v, cache1, [lId])
        | none => (GetCoverRes.panicked, cache1, [lId])).2.2 = [lId]
    cases hf : download_cover fetchBody sniff [] lId with
    | none => rfl
    | some cache1 =>
      dsimp only
      cases hl : cache1.lookup lId with
      | none => rfl
      | some v => rfl

/-- Witness for C6 at a concrete cover list. -/
theorem C6_cover_size_selection_witness :
    (∃ c l1 l2,
      max_by_key [Image.mk "d" ImageSize.DEFAULT, Image.mk "l" ImageSize.LARGE] = some c ∧
      [Image.mk "d" ImageSize.DEFAULT, Image.mk "l" ImageSize.LARGE] = l1 ++ c :: l2 ∧
      (∀ d ∈ [Image.mk "d" ImageSize.DEFAULT, Image.mk "l" ImageSize.LARGE],
        size_rank d.size ≤ size_rank c.size) ∧
      (∀ d ∈ l2, size_rank d.size < size_rank c.size)) ∧
    (∃ c, max_by_key [Image.mk "d" ImageSize.DEFAULT, Image.mk "l" ImageSize.LARGE] = some c ∧
      c.size = ImageSize.LARGE) ∧
    (get_cover (fun _ => some [7]) (fun _ => none) []
      [Image.mk "d" ImageSize.DEFAULT, Image.mk "l" ImageSize.LARGE]).2.2 = ["l"] := by
  have h := C6_cover_size_selection
    [Image.mk "d" ImageSize.DEFAULT, Image.mk "l" ImageSize.LARGE] (by decide)
  exact ⟨h.1, h.2.1 (by decide) (by decide), h.2.2 "d" "l" (fun _ => some [7]) (fun _ => none)⟩

/-- Counterexample to C7: at a concrete track with zero cover descriptors,
`get_cover` does not return a "no cover available" error value: it
terminates abnormally (`GetCoverRes.panicked`, the `.unwrap()` of
`max_by_key` over the empty cover list), contradicting the claim's "rather
than ... terminating abnormally". -/
theorem C7_counterexample :
    (get_cover (fun _ => some [1]) (fun _ => none) [] []).1 = GetCoverRes.panicked := by
  decide

/-- C7 (amended): for every track with zero cover-art descriptors,
`get_cover` panics (unwrap of the empty maximum) — an abnormal termination,
not an error value returned to the caller — and touches neither the cache
nor the network. -/
theorem C7_empty_covers_panics (fetchBody : String → Option (List Nat))
    (sniff : List Nat → Option String) (cache : CoverCache) :
    get_cover fetchBody sniff cache [] = (.panicked, cache, []) := rfl

theorem count_single_ne {a b : String} (h : a ≠ b) : List.count a [b] = 0 := by
  rw [List.count_singleton']
  simp [Ne.symm h]

theorem get_cover_hit {fetchBody : String → Option (List Nat)}
    {sniff : List Nat → Option String} {cache : CoverCache} {covers : List Image}
    {c : Image} {v : CoverVal} (hmax : max_by_key covers = some c)
    (hhit : cache.lookup c.id = some v) :
    get_cover fetchBody sniff cache covers = (.ok v, cache, []) := by
  rw [get_cover, hmax]
  dsimp only
  rw [hhit]
  simp

theorem get_cover_miss {body : String → List Nat} {sniff : List Nat → Option String}
    {cache : CoverCache} {covers : List Image} {c : Image}
    (hmax : max_by_key covers = some c) (hmiss : cache.lookup c.id = none) :
    get_cover (fun u => some (body u)) sniff cache covers =
      (.ok (cov_val body sniff c.id),
        (c.id, cov_val body sniff c.id) :: cache, [c.id]) := by
  have hdl : download_cover (fun u => some (body u)) sniff cache c.id =
      some ((c.id, cov_val body sniff c.id) :: cache) := rfl
  have hlk : List.lookup c.id ((c.id, cov_val body sniff c.id) :: cache) =
      some (cov_val body sniff c.id) := by
    rw [lookup_cons_eq]
    simp
  rw [get_cover, hmax]
  dsimp only
  rw [hmiss]
  simp [hdl, hlk]

theorem run_gets_spec (body : String → List Nat) (sniff : List Nat → Option String) :
    ∀ (calls : List (List Image)) (cache cacheF : CoverCache)
      (outs : List (GetCoverRes × List String)),
    run_gets (fun u => some (body u)) sniff cache calls = (cacheF, outs) →
    (∀ id v, cache.lookup id = some v → v = cov_val body sniff id) →
    (∀ cs ∈ calls, cs ≠ []) →
    (∀ id v, cacheF.lookup id = some v → v = cov_val body sniff id) ∧
    (∀ id, (cache.lookup id).isSome →
      (cacheF.lookup id).isSome ∧ (outs.map Prod.snd).flatten.count id = 0) ∧
    (∀ id, (outs.map Prod.snd).flatten.count id ≤ 1) ∧
    (∀ p ∈ calls.zip outs, ∀ id, sel_id p.1 = some id →
      p.2.1 = GetCoverRes.ok (cov_val body sniff id)) ∧
    (∀ id, (∃ cs ∈ calls, sel_id cs = some id) → (cacheF.lookup id).isSome) ∧
    (∀ id, cache.lookup id = none → (∃ cs ∈ calls, sel_id cs = some id) →
      1 ≤ (outs.map Prod.snd).flatten.count id) := by
  intro calls
  induction calls with
  | nil =>
    intro cache cacheF outs hrun hINV _hne
    rw [run_gets] at hrun
    injection hrun with h1 h2
    subst h1
    subst h2
    refine ⟨hINV, fun id h => ⟨h, by simp⟩, by simp, by simp, ?_, ?_⟩
    · rintro id ⟨cs, hcs, _⟩
      cases hcs
    · rintro id _ ⟨cs, hcs, _⟩
      cases hcs
  | cons covers rest ih =>
    intro cache cacheF outs hrun hINV hne
    have hcne : covers ≠ [] := hne covers (List.mem_cons_self _ _)
    have hne1 : ∀ cs ∈ rest, cs ≠ [] := fun cs hcs => hne cs (List.mem_cons_of_mem _ hcs)
    rcases max_by_key_spec covers hcne with ⟨c, _, _, hmax, _, _, _⟩
    have hsel : sel_id covers = some c.id := by rw [sel_id, hmax]; rfl
    have hselinj : ∀ id, sel_id covers = some id → id = c.id := by
      intro id h
      rw [hsel] at h
      exact (Option.some.inj h).symm
    cases hlk : cache.lookup c.id with
    | some v =>
      have hv : v = cov_val body sniff c.id := hINV c.id v hlk
      subst hv
      have hgc := @get_cover_hit (fun u => some (body u)) sniff cache covers c
        (cov_val body sniff c.id) hmax hlk
      rw [run_gets, hgc] at hrun
      dsimp only at hrun
      cases hrest : run_gets (fun u => some (body u)) sniff cache rest with
      | mk cF1 outs1 =>
        rw [hrest] at hrun
        dsimp only at hrun
        injection hrun with h1 h2
        subst h1
        subst h2
        rcases ih cache cF1 outs1 hrest hINV hne1 with
          ⟨ih1, ih2, ih3, ih4, ih5, ih6⟩
        refine ⟨ih1, ?_, ?_, ?_, ?_, ?_⟩
        · intro id hid
          rcases ih2 id hid with ⟨ha, hb⟩
          exact ⟨ha, by simpa using hb⟩
        · intro id
          simpa using ih3 id
        · intro p hp id hpid
          rcases List.mem_cons.mp hp with rfl | hp2
          · have := hselinj id hpid
            subst this
            rfl
          · exact ih4 p hp2 id hpid
        · rintro id ⟨cs, hcs, hid⟩
          rcases List.mem_cons.mp hcs with rfl | hcs2
          · have := hselinj id hid
            subst this
            exact (ih2 c.id (by rw [hlk]; rfl)).1
          · exact ih5 id ⟨cs, hcs2, hid⟩
        · rintro id hnone ⟨cs, hcs, hid⟩
          rcases List.mem_cons.mp hcs with rfl | hcs2
          · have := hselinj id hid
            subst this
            rw [hnone] at hlk
            cases hlk
          · simpa using ih6 id hnone ⟨cs, hcs2, hid⟩
    | none =>
      have hgc := @get_cover_miss body sniff cache covers c hmax hlk
      rw [run_gets, hgc] at hrun
      dsimp only at hrun
      cases hrest : run_gets (fun u => some (body u)) sniff
          ((c.id, cov_val body sniff c.id) :: cache) rest with
      | mk cF1 outs1 =>
        rw [hrest] at hrun
        dsimp only at hrun
        injection hrun with h1 h2
        subst h1
        subst h2
        have hINV1 : ∀ id v,
            ((c.id, cov_val body sniff c.id) :: cache).lookup id = some v →
            v = cov_val body sniff id := by
          intro id v h
          rw [lookup_cons_eq] at h
          by_cases hid : id = c.id
          · rw [if_pos hid] at h
            rw [← Option.some.inj h, hid]
          · rw [if_neg hid] at h
            exact hINV id v h
        rcases ih _ cF1 outs1 hrest hINV1 hne1 with ⟨ih1, ih2, ih3, ih4, ih5, ih6⟩
        have hlk1self : (((c.id, cov_val body sniff c.id) :: cache).lookup c.id).isSome := by
          rw [lookup_cons_eq]
          simp
        refine ⟨ih1, ?_, ?_, ?_, ?_, ?_⟩
        · intro id hid
          have hidne : id ≠ c.id := by
            intro h
            rw [h, hlk] at hid
            cases hid
          have hid1 : (((c.id, cov_val body sniff c.id) :: cache).lookup id).isSome := by
            rw [lookup_cons_eq, if_neg hidne]
            exact hid
          rcases ih2 id hid1 with ⟨ha, hb⟩
          refine ⟨ha, ?_⟩
          simp only [List.map_cons, List.flatten_cons, List.count_append, hb,
            count_single_ne hidne]
        · intro id
          by_cases hid : id = c.id
          · subst hid
            have h0 := (ih2 c.id hlk1self).2
            simp only [List.map_cons, List.flatten_cons, List.count_append, h0,
              List.count_singleton']
            simp
          · have h1 := ih3 id
            simp only [List.map_cons, List.flatten_cons, List.count_append,
              count_single_ne hid]
            omega
        · intro p hp id hpid
          rcases List.mem_cons.mp hp with rfl | hp2
          · have := hselinj id hpid
            subst this
            rfl
          · exact ih4 p hp2 id hpid
        · rintro id ⟨cs, hcs, hid⟩
          rcases List.mem_cons.mp hcs with rfl | hcs2
          · have := hselinj id hid
            subst this
            exact (ih2 c.id hlk1self).1
          · exact ih5 id ⟨cs, hcs2, hid⟩
        · rintro id _hnone ⟨cs, hcs, hid⟩
          by_cases hidc : id = c.id
          · subst hidc
            simp only [List.map_cons, List.flatten_cons, List.count_append,
              List.count_singleton']
            simp
          · rcases List.mem_cons.mp hcs with rfl | hcs2
            · exact absurd (hselinj id hid) hidc
            · have hnone1 : ((c.id, cov_val body sniff c.id) :: cache).lookup id = none := by
                rw [lookup_cons_eq, if_neg hidc]
                exact _hnone
              have := ih6 id hnone1 ⟨cs, hcs2, hid⟩
              simp only [List.map_cons, List.flatten_cons, List.count_append]
              omega

/-- C5: starting from the empty process-lifetime cache, across any sequence
of `get_cover` calls (with a responsive network oracle and every track
owning at least one cover descriptor) at most one remote fetch is issued
per cover identifier — exactly one for every identifier actually selected —
every call for an identifier returns the same tuple, namely the one the
oracle determines for that identifier, and the cache entry for a selected
identifier is present at the end with that same value (never evicted or
overwritten). -/
theorem C5_cover_cache_dedup (body : String → List Nat)
    (sniff : List Nat → Option String) (calls : List (List Image))
    (cacheF : CoverCache) (outs : List (GetCoverRes × List String))
    (hrun : run_gets (fun u => some (body u)) sniff [] calls = (cacheF, outs))
    (hne : ∀ cs ∈ calls, cs ≠ []) :
    (∀ id, (outs.map Prod.snd).flatten.count id ≤ 1) ∧
    (∀ id, (∃ cs ∈ calls, sel_id cs = some id) →
      (outs.map Prod.snd).flatten.count id = 1) ∧
    (∀ p ∈ calls.zip outs, ∀ id, sel_id p.1 = some id →
      p.2.1 = GetCoverRes.ok (cov_val body sniff id)) ∧
    (∀ id, (∃ cs ∈ calls, sel_id cs = some id) →
      cacheF.lookup id = some (cov_val body sniff id)) := by
  have hINV0 : ∀ id v, ([] : CoverCache).lookup id = some v →
      v = cov_val body sniff id := by
    intro id v h
    cases h
  rcases run_gets_spec body sniff calls [] cacheF outs hrun hINV0 hne with
    ⟨h1, _h2, h3, h4, h5, h6⟩
  refine ⟨h3, ?_, h4, ?_⟩
  · intro id hid
    have hge := h6 id rfl hid
    have hle := h3 id
    omega
  · intro id hid
    have hs := h5 id hid
    cases hv : cacheF.lookup id with
    | none => rw [hv] at hs; cases hs
    | some v => rw [h1 id v hv]

/-- Witness for C5 at a concrete two-call sequence sharing one identifier. -/
theorem C5_cover_cache_dedup_witness :
    (((([(GetCoverRes.ok ([7], MimeType.Jpeg), ["x"]),
        (GetCoverRes.ok ([7], MimeType.Jpeg), ([] : List String))]).map
          Prod.snd).flatten.count "x") ≤ 1) ∧
    GetCoverRes.ok (([7], MimeType.Jpeg) : CoverVal) =
      GetCoverRes.ok (cov_val (fun _ => [7]) (fun _ => none) "x") := by
  have h := C5_cover_cache_dedup (fun _ => [7]) (fun _ => none)
    [[Image.mk "x" ImageSize.LARGE], [Image.mk "x" ImageSize.DEFAULT]]
    [("x", ([7], MimeType.Jpeg))]
    [(GetCoverRes.ok ([7], MimeType.Jpeg), ["x"]),
      (GetCoverRes.ok ([7], MimeType.Jpeg), [])]
    (by decide) (by decide)
  refine ⟨h.1 "x", ?_⟩
  have := h.2.2.1 ([Image.mk "x" ImageSize.LARGE],
      (GetCoverRes.ok ([7], MimeType.Jpeg), ["x"])) (by decide) "x" (by decide)
  exact this


/-- C9: for every successfully materialized track — `download_track`
returning `Ok` with a written file — the output file's name is exactly the
spec template `"{artists} - {trackName} ({externalId}).{ext}"`
(`spec_output_filename`), with the artists joined by " & " in display order
and the extension derived from the selected format. -/
theorem C9_output_filename (fetchBody : String → Option (List Nat))
    (sniff : List Nat → Option String) (cache : CoverCache) (c : Collab)
    (track : Track) (fn : String) (tagged : Bool) (cacheF : CoverCache)
    (h : download_track fetchBody sniff cache c track =
      (.ok (some fn) tagged, cacheF)) :
    ∃ format file_id, select_format track.files = some (format, file_id) ∧
      fn = spec_output_filename format track := by
  unfold download_track at h
  split at h
  · simp at h
  · split at h
    · simp at h
    next format file_id heq =>
      split at h
      · simp at h
      · split at h
        · simp at h
        · split at h
          · simp at h
          · unfold save_decrypted_audio at h
            dsimp only at h
            split at h
            · simp at h
            · split at h
              · simp at h
              · split at h
                next cache1 htag =>
                  refine ⟨format, file_id, heq, ?_⟩
                  injection h with h1 h2
                  injection h1 with h3 h4
                  injection h3 with h5
                  rw [← h5]
                  rfl
                next cache1 htag =>
                  refine ⟨format, file_id, heq, ?_⟩
                  injection h with h1 h2
                  injection h1 with h3 h4
                  injection h3 with h5
                  rw [← h5]
                  rfl
                next cache1 htag => simp at h
                next cache1 htag => simp at h

/-- Witness for C9 at a concrete successful materialization. -/
theorem C9_output_filename_witness :
    ∃ format file_id, select_format track_fx.files = some (format, file_id) ∧
      "A & B - T (ID).ogg" = spec_output_filename format track_fx :=
  C9_output_filename (fun _ => some [7]) (fun _ => none) [] collab_ok track_fx
    "A & B - T (ID).ogg" true [("c", ([7], MimeType.Jpeg))] (by decide)

/-- C8: a `WriteBytes` failure (file creation or full-stream copy) of any
track is propagated as a fatal error that ends the album loop with no
further track processed, whereas the skip-track failures (non-track URI,
unsupported format, remote-open failure, sub-range construction failure)
yield `Ok` with no file written and album processing continues with the
remaining tracks. -/
theorem C8_fatal_versus_skip (fetchBody : String → Option (List Nat))
    (sniff : List Nat → Option String) (cache : CoverCache) (c : Collab)
    (track : Track) (rest : List (Collab × Track)) :
    (c.metaOk = true → track.idIsTrack = true →
     (select_format track.files).isSome →
     c.openOk = true → c.slcOk = true → c.subfileOk = true →
     (c.createOk = false ∨ c.copyOk = false) →
       (download_track fetchBody sniff cache c track).1 = TrackResult.err ∧
       download_album fetchBody sniff cache ((c, track) :: rest) =
         ([TrackResult.err], cache)) ∧
    (c.metaOk = true →
     (track.idIsTrack = false ∨ select_format track.files = none ∨
       c.openOk = false ∨ (c.slcOk = true ∧ c.subfileOk = false)) →
       download_track fetchBody sniff cache c track =
         (TrackResult.ok none false, cache) ∧
       (download_album fetchBody sniff cache ((c, track) :: rest)).1 =
         TrackResult.ok none false ::
           (download_album fetchBody sniff cache rest).1) := by
  constructor
  · intro hmeta hti hsel hopen hslc hsub hwf
    have htrk : (download_track fetchBody sniff cache c track) =
        (TrackResult.err, cache) := by
      cases hfmt : select_format track.files with
      | none => rw [hfmt] at hsel; cases hsel
      | some pr =>
        cases pr with
        | mk format file_id =>
          unfold download_track
          rw [hti, hfmt]
          unfold save_decrypted_audio
          rcases hwf with hcf | hcf
          · simp [hopen, hslc, hsub, hcf]
          · cases hcr : c.createOk
            · simp [hopen, hslc, hsub, hcr]
            · simp [hopen, hslc, hsub, hcr, hcf]
    refine ⟨by rw [htrk], ?_⟩
    simp [download_album, hmeta, htrk]
  · intro hmeta hskip
    have htrk : download_track fetchBody sniff cache c track =
        (TrackResult.ok none false, cache) := by
      unfold download_track
      rcases hskip with hti | hsel | hop | ⟨hslc, hsub⟩
      · rw [hti]
        rfl
      · cases hti : track.idIsTrack
        · rfl
        · rw [hsel]
          rfl
      · cases hti : track.idIsTrack
        · rfl
        · cases hfmt : select_format track.files with
          | none => rfl
          | some pr =>
            cases pr with
            | mk format file_id => simp [hop]
      · cases hti : track.idIsTrack
        · rfl
        · cases hfmt : select_format track.files with
          | none => rfl
          | some pr =>
            cases pr with
            | mk format file_id =>
              cases hop : c.openOk
              · simp [hop]
              · simp [hop, hslc, hsub]
    refine ⟨htrk, ?_⟩
    simp only [download_album, hmeta, htrk, Bool.not_true, Bool.false_eq_true,
      if_false]

/-- Witness for C8: a concrete write failure ends the album; a concrete
unsupported-format track is skipped and the album continues. -/
theorem C8_fatal_versus_skip_witness :
    ((download_track (fun _ => some [7]) (fun _ => none) []
        { collab_ok with copyOk := false } track_fx).1 = TrackResult.err ∧
      download_album (fun _ => some [7]) (fun _ => none) []
        [({ collab_ok with copyOk := false }, track_fx), (collab_ok, track_fx)] =
        ([TrackResult.err], [])) ∧
    (download_track (fun _ => some [7]) (fun _ => none) [] collab_ok
        { track_fx with files := [] } = (TrackResult.ok none false, []) ∧
      (download_album (fun _ => some [7]) (fun _ => none) []
        [(collab_ok, { track_fx with files := [] })]).1 =
        TrackResult.ok none false ::
          (download_album (fun _ => some [7]) (fun _ => none) []
            ([] : List (Collab × Track))).1) :=
  ⟨(C8_fatal_versus_skip (fun _ => some [7]) (fun _ => none) []
      { collab_ok with copyOk := false } track_fx [(collab_ok, track_fx)]).1
      (by decide) (by decide) (by decide) (by decide) (by decide) (by decide)
      (Or.inr (by decide)),
    (C8_fatal_versus_skip (fun _ => some [7]) (fun _ => none) [] collab_ok
      { track_fx with files := [] } []).2 (by decide) (Or.inr (Or.inl (by decide)))⟩

/-- Counterexample to C2: at a concrete track with every collaborator
succeeding except the cover fetch, the FetchCover failure is fatal — the
track result is a propagated error, not a success, and the two-track album
run stops after the first track instead of continuing — contradicting the
claim that a failed cover fetch does not abort the album. -/
theorem C2_counterexample :
    (download_track (fun _ => none) (fun _ => none) [] collab_ok track_fx).1 =
      TrackResult.err ∧
    (download_album (fun _ => none) (fun _ => none) []
      [(collab_ok, track_fx), (collab_ok, track_fx)]).1 = [TrackResult.err] := by
  decide

/-- C2 (amended): for a track that reaches the tagging stage, only the
EmbedTags (`tag.save_to_path`) failure is non-fatal — a warning is logged,
the written audio file remains on disk untagged, the track still counts as
successfully downloaded and the album continues — whereas a failure of the
FetchCover stage (`get_cover` returning an error) propagates as a fatal
error that aborts the remaining album. -/
theorem C2_tag_failure_nonfatal_cover_failure_fatal
    (fetchBody : String → Option (List Nat)) (sniff : List Nat → Option String)
    (cache : CoverCache) (c : Collab) (track : Track)
    (rest : List (Collab × Track)) (hmeta : c.metaOk = true)
    (hti : track.idIsTrack = true) (hsel : (select_format track.files).isSome)
    (hopen : c.openOk = true) (hslc : c.slcOk = true) (hsub : c.subfileOk = true)
    (hcr : c.createOk = true) (hcp : c.copyOk = true) :
    (∀ v cache1 fetched,
      get_cover fetchBody sniff cache track.covers = (.ok v, cache1, fetched) →
      c.saveTagOk = false →
      ∃ fn, download_track fetchBody sniff cache c track =
          (TrackResult.ok (some fn) false, cache1) ∧
        (download_album fetchBody sniff cache ((c, track) :: rest)).1 =
          TrackResult.ok (some fn) false ::
            (download_album fetchBody sniff cache1 rest).1) ∧
    (∀ cache1 fetched,
      get_cover fetchBody sniff cache track.covers = (.failed, cache1, fetched) →
      download_track fetchBody sniff cache c track = (TrackResult.err, cache1) ∧
      download_album fetchBody sniff cache ((c, track) :: rest) =
        ([TrackResult.err], cache1)) := by
  cases hfmt : select_format track.files with
  | none => rw [hfmt] at hsel; cases hsel
  | some pr =>
    cases pr with
    | mk format file_id =>
      constructor
      · intro v cache1 fetched hgc hsave
        have htrk : download_track fetchBody sniff cache c track =
            (TrackResult.ok (some (String.intercalate " & " track.artists ++
              " - " ++ track.name ++ " (" ++ track.idStr ++ ")." ++
              get_extension_from_format format)) false, cache1) := by
          unfold download_track save_decrypted_audio apply_tag
          rw [hti, hfmt, hgc]
          simp [hopen, hslc, hsub, hcr, hcp, hsave]
        refine ⟨_, htrk, ?_⟩
        simp [download_album, hmeta, htrk]
      · intro cache1 fetched hgc
        have htrk : download_track fetchBody sniff cache c track =
            (TrackResult.err, cache1) := by
          unfold download_track save_decrypted_audio apply_tag
          rw [hti, hfmt, hgc]
          simp [hopen, hslc, hsub, hcr, hcp]
        refine ⟨htrk, ?_⟩
        simp [download_album, hmeta, htrk]

/-- Witness for the amended C2 at concrete tracks: a tag-save failure still
yields a written (untagged) file and a continuing album; a cover-fetch
failure yields a propagated error and a stopped album. -/
theorem C2_tag_failure_nonfatal_cover_failure_fatal_witness :
    (∃ fn, download_track (fun _ => some [7]) (fun _ => none) []
        { collab_ok with saveTagOk := false } track_fx =
        (TrackResult.ok (some fn) false, [("c", (([7] : List Nat), MimeType.Jpeg))]) ∧
      (download_album (fun _ => some [7]) (fun _ => none) []
        [({ collab_ok with saveTagOk := false }, track_fx)]).1 =
        TrackResult.ok (some fn) false ::
          (download_album (fun _ => some [7]) (fun _ => none)
            [("c", (([7] : List Nat), MimeType.Jpeg))]
            ([] : List (Collab × Track))).1) ∧
    (download_track (fun _ => none) (fun _ => none) [] collab_ok track_fx =
        (TrackResult.err, []) ∧
      download_album (fun _ => none) (fun _ => none) []
        [(collab_ok, track_fx)] = ([TrackResult.err], [])) :=
  ⟨(C2_tag_failure_nonfatal_cover_failure_fatal (fun _ => some [7]) (fun _ => none)
      [] { collab_ok with saveTagOk := false } track_fx [] (by decide) (by decide)
      (by decide) (by decide) (by decide) (by decide) (by decide) (by decide)).1
      ([7], MimeType.Jpeg) [("c", ([7], MimeType.Jpeg))] ["c"] (by decide) (by decide),
    (C2_tag_failure_nonfatal_cover_failure_fatal (fun _ => none) (fun _ => none)
      [] collab_ok track_fx [] (by decide) (by decide) (by decide) (by decide)
      (by decide) (by decide) (by decide) (by decide)).2 [] ["c"] (by decide)⟩

end Librespot
